import Mathlib

/-
Verification of the error-tracked scalar arithmetic of package predicates
(file predicates/float64pred.go).

Modelling choices. The Go code works on float64. We embed the numbers as
rationals and keep the arithmetic that computes the error bound field exact,
which is also how the specification states each formula. Where a claim is about
the relation between the stored value and the true value of the computation,
the rounding that float64 performs on the stored value matters; for that we
also give a second semantics in which every arithmetic result on the value
field passes through an abstract rounding function, constrained only by the
machine-epsilon property that the source derives its formulas from.
-/

/-- Float64Pred pairs a number n with the max rounding error e possible,
as in the Go struct. -/
structure Float64Pred where
  n : ℚ
  e : ℚ
  deriving Repr, DecidableEq

/-- macheps is the machine epsilon aka unit roundoff, 2 ^ (-52) in the source. -/
def macheps : ℚ := 1 / 2 ^ 52

/-- math.SmallestNonzeroFloat64, the smallest positive representable float64,
2 ^ (-1074). -/
def smallestNonzeroFloat64 : ℚ := 1 / 2 ^ 1074

/-- NewFloat64Pred returns a new Float64Pred with e set to 0. -/
def NewFloat64Pred (n : ℚ) : Float64Pred :=
  { n := n, e := 0 }

/-- GetValues returns the number and the potential error stored in p. -/
def GetValues (p : Float64Pred) : ℚ × ℚ :=
  (p.n, p.e)

/-- AddFloat64 adds f to p and updates the potential error. -/
def AddFloat64 (p : Float64Pred) (f : ℚ) : Float64Pred :=
  let n := p.n + f
  if n = 0 then
    { n := n, e := p.e + smallestNonzeroFloat64 }
  else
    { n := n, e := p.e + macheps * |n| / (1 - macheps) }

/-- AddFloat64Pred adds b to a and updates the potential error. -/
def AddFloat64Pred (a : Float64Pred) (b : Float64Pred) : Float64Pred :=
  let n := a.n + b.n
  if n = 0 then
    { n := n, e := a.e + (smallestNonzeroFloat64 + b.e) }
  else
    { n := n, e := a.e + (macheps * |n| / (1 - macheps) + b.e) }

/-- SubFloat64 subtracts f from p and updates the potential error. -/
def SubFloat64 (p : Float64Pred) (f : ℚ) : Float64Pred :=
  let n := p.n - f
  if n = 0 then
    { n := n, e := p.e + smallestNonzeroFloat64 }
  else
    { n := n, e := p.e + macheps * |n| / (1 - macheps) }

/-- SubFloat64Pred subtracts b from a and updates the potential error. -/
def SubFloat64Pred (a : Float64Pred) (b : Float64Pred) : Float64Pred :=
  let n := a.n - b.n
  if n = 0 then
    { n := n, e := a.e + (smallestNonzeroFloat64 + b.e) }
  else
    { n := n, e := a.e + (macheps * |n| / (1 - macheps) + b.e) }

/-- MulFloat64Pred multiplies p with f and updates the potential error.
As in the source, the old p.e is both kept (the += pattern) and scaled
by the magnitude of f. -/
def MulFloat64Pred (p : Float64Pred) (f : ℚ) : Float64Pred :=
  let n := p.n * f
  if n = 0 then
    { n := n, e := p.e + (smallestNonzeroFloat64 + p.e * |f|) }
  else
    { n := n, e := p.e + (macheps * |n| / (1 - macheps) + p.e * |f|) }

/-- MulFloat64 multiplies a with b and updates the potential error.
In the source the line a.n *= b.n runs before the error update, so the
term b.e * math.Abs(a.n) reads the already-multiplied a.n, that is the
product, not the original a.n. The model keeps that behaviour. -/
def MulFloat64 (a : Float64Pred) (b : Float64Pred) : Float64Pred :=
  let n := a.n * b.n
  if n = 0 then
    { n := n, e := a.e + (smallestNonzeroFloat64 + a.e * |b.n| + b.e * |n|) }
  else
    { n := n, e := a.e + (macheps * |n| / (1 - macheps) + a.e * |b.n| + b.e * |n|) }

/-- Rounding-increment rule of the specification: the smallest positive
representable float64 when the post-operation value is 0, otherwise
unitRoundoff * the magnitude of the value / (1 - unitRoundoff). Matches the
branch bodies inlined in every operation of the source. -/
def increment (v : ℚ) : ℚ :=
  if v = 0 then smallestNonzeroFloat64 else macheps * |v| / (1 - macheps)

lemma macheps_pos : 0 < macheps := by norm_num [macheps]

lemma one_sub_macheps_pos : 0 < 1 - macheps := by norm_num [macheps]

lemma smallestNonzeroFloat64_pos : 0 < smallestNonzeroFloat64 := by
  norm_num [smallestNonzeroFloat64]

lemma rel_term_nonneg (v : ℚ) : 0 ≤ macheps * |v| / (1 - macheps) :=
  div_nonneg (mul_nonneg macheps_pos.le (abs_nonneg v)) one_sub_macheps_pos.le

lemma increment_nonneg (v : ℚ) : 0 ≤ increment v := by
  unfold increment
  split_ifs
  · exact smallestNonzeroFloat64_pos.le
  · exact rel_term_nonneg v

lemma AddFloat64_eq (p : Float64Pred) (f : ℚ) :
    AddFloat64 p f = ⟨p.n + f, p.e + increment (p.n + f)⟩ := by
  simp only [AddFloat64, increment]
  split_ifs <;> rfl

lemma SubFloat64_eq (p : Float64Pred) (f : ℚ) :
    SubFloat64 p f = ⟨p.n - f, p.e + increment (p.n - f)⟩ := by
  simp only [SubFloat64, increment]
  split_ifs <;> rfl

lemma AddFloat64Pred_eq (a b : Float64Pred) :
    AddFloat64Pred a b = ⟨a.n + b.n, a.e + b.e + increment (a.n + b.n)⟩ := by
  simp only [AddFloat64Pred, increment]
  split_ifs <;> simp only [Float64Pred.mk.injEq] <;> exact ⟨trivial, by ring⟩

lemma SubFloat64Pred_eq (a b : Float64Pred) :
    SubFloat64Pred a b = ⟨a.n - b.n, a.e + b.e + increment (a.n - b.n)⟩ := by
  simp only [SubFloat64Pred, increment]
  split_ifs <;> simp only [Float64Pred.mk.injEq] <;> exact ⟨trivial, by ring⟩

lemma MulFloat64Pred_eq (p : Float64Pred) (f : ℚ) :
    MulFloat64Pred p f = ⟨p.n * f, p.e * (1 + |f|) + increment (p.n * f)⟩ := by
  simp only [MulFloat64Pred, increment]
  split_ifs <;> simp only [Float64Pred.mk.injEq] <;> exact ⟨trivial, by ring⟩

lemma MulFloat64_eq (a b : Float64Pred) :
    MulFloat64 a b =
      ⟨a.n * b.n, a.e * (1 + |b.n|) + b.e * |a.n * b.n| + increment (a.n * b.n)⟩ := by
  simp only [MulFloat64, increment]
  split_ifs <;> simp only [Float64Pred.mk.injEq] <;> exact ⟨trivial, by ring⟩

/-- Expr describes the scalars reachable through the API: a constructor call
followed by any finite combination of the six arithmetic operations, where
tracked operands are themselves reachable. -/
inductive Expr where
  | construct (c : ℚ)
  | addF (x : Expr) (f : ℚ)
  | subF (x : Expr) (f : ℚ)
  | mulF (x : Expr) (f : ℚ)
  | addP (x : Expr) (y : Expr)
  | subP (x : Expr) (y : Expr)
  | mulP (x : Expr) (y : Expr)

/-- evalPred runs a reachable computation through the operations of the code,
with the value arithmetic exact. -/
def evalPred : Expr → Float64Pred
  | .construct c => NewFloat64Pred c
  | .addF x f => AddFloat64 (evalPred x) f
  | .subF x f => SubFloat64 (evalPred x) f
  | .mulF x f => MulFloat64Pred (evalPred x) f
  | .addP x y => AddFloat64Pred (evalPred x) (evalPred y)
  | .subP x y => SubFloat64Pred (evalPred x) (evalPred y)
  | .mulP x y => MulFloat64 (evalPred x) (evalPred y)

/-- trueVal is the exact real-arithmetic result of a reachable computation:
the same operations with no rounding and no error tracking. -/
def trueVal : Expr → ℚ
  | .construct c => c
  | .addF x f => trueVal x + f
  | .subF x f => trueVal x - f
  | .mulF x f => trueVal x * f
  | .addP x y => trueVal x + trueVal y
  | .subP x y => trueVal x - trueVal y
  | .mulP x y => trueVal x * trueVal y

/-- AddFloat64Rnd is AddFloat64 with the float64 rounding of the value made
explicit: the sum p.n + f is stored rounded by fl, and the error update reads
that stored value, exactly as the Go p.n += f does in float64 arithmetic. -/
def AddFloat64Rnd (fl : ℚ → ℚ) (p : Float64Pred) (f : ℚ) : Float64Pred :=
  let n := fl (p.n + f)
  if n = 0 then
    { n := n, e := p.e + smallestNonzeroFloat64 }
  else
    { n := n, e := p.e + macheps * |n| / (1 - macheps) }

/-- AddFloat64PredRnd is AddFloat64Pred with the rounding of the value made
explicit. -/
def AddFloat64PredRnd (fl : ℚ → ℚ) (a : Float64Pred) (b : Float64Pred) : Float64Pred :=
  let n := fl (a.n + b.n)
  if n = 0 then
    { n := n, e := a.e + (smallestNonzeroFloat64 + b.e) }
  else
    { n := n, e := a.e + (macheps * |n| / (1 - macheps) + b.e) }

/-- SubFloat64Rnd is SubFloat64 with the rounding of the value made explicit. -/
def SubFloat64Rnd (fl : ℚ → ℚ) (p : Float64Pred) (f : ℚ) : Float64Pred :=
  let n := fl (p.n - f)
  if n = 0 then
    { n := n, e := p.e + smallestNonzeroFloat64 }
  else
    { n := n, e := p.e + macheps * |n| / (1 - macheps) }

/-- SubFloat64PredRnd is SubFloat64Pred with the rounding of the value made
explicit. -/
def SubFloat64PredRnd (fl : ℚ → ℚ) (a : Float64Pred) (b : Float64Pred) : Float64Pred :=
  let n := fl (a.n - b.n)
  if n = 0 then
    { n := n, e := a.e + (smallestNonzeroFloat64 + b.e) }
  else
    { n := n, e := a.e + (macheps * |n| / (1 - macheps) + b.e) }

/-- MulFloat64PredRnd is MulFloat64Pred with the rounding of the value made
explicit. -/
def MulFloat64PredRnd (fl : ℚ → ℚ) (p : Float64Pred) (f : ℚ) : Float64Pred :=
  let n := fl (p.n * f)
  if n = 0 then
    { n := n, e := p.e + (smallestNonzeroFloat64 + p.e * |f|) }
  else
    { n := n, e := p.e + (macheps * |n| / (1 - macheps) + p.e * |f|) }

/-- MulFloat64Rnd is MulFloat64 with the rounding of the value made explicit.
As in the source, the cross term b.e * math.Abs(a.n) reads the already-updated
a.n, which in float64 is the rounded product. -/
def MulFloat64Rnd (fl : ℚ → ℚ) (a : Float64Pred) (b : Float64Pred) : Float64Pred :=
  let n := fl (a.n * b.n)
  if n = 0 then
    { n := n, e := a.e + (smallestNonzeroFloat64 + a.e * |b.n| + b.e * |n|) }
  else
    { n := n, e := a.e + (macheps * |n| / (1 - macheps) + a.e * |b.n| + b.e * |n|) }

/-- evalRnd runs a reachable computation through the operations of the code
with the value field rounded by fl after every arithmetic step, which is what
float64 arithmetic does to the stored value. -/
def evalRnd (fl : ℚ → ℚ) : Expr → Float64Pred
  | .construct c => NewFloat64Pred c
  | .addF x f => AddFloat64Rnd fl (evalRnd fl x) f
  | .subF x f => SubFloat64Rnd fl (evalRnd fl x) f
  | .mulF x f => MulFloat64PredRnd fl (evalRnd fl x) f
  | .addP x y => AddFloat64PredRnd fl (evalRnd fl x) (evalRnd fl y)
  | .subP x y => SubFloat64PredRnd fl (evalRnd fl x) (evalRnd fl y)
  | .mulP x y => MulFloat64Rnd fl (evalRnd fl x) (evalRnd fl y)

/-- IsRounding states the machine-epsilon property the source derives all of
its formulas from: if y is the machine representation of x then the absolute
value of (x - y) is at most macheps times the absolute value of x. Float64
round-to-nearest satisfies it on the normal range. -/
def IsRounding (fl : ℚ → ℚ) : Prop :=
  ∀ x : ℚ, |fl x - x| ≤ macheps * |x|

/-- C8: Read(Construct(n)) returns exactly the pair (n, 0): a freshly
constructed scalar stores the given number with error bound zero. -/
theorem construct_getValues (n : ℚ) : GetValues (NewFloat64Pred n) = (n, 0) := rfl

/-- C4: AddTracked and SubTracked add respectively subtract the two stored
values and set the new error bound to the sum of both operand bounds plus the
rounding increment of the new value. -/
theorem addTracked_subTracked_formula (a b : Float64Pred) :
    AddFloat64Pred a b = ⟨a.n + b.n, a.e + b.e + increment (a.n + b.n)⟩ ∧
    SubFloat64Pred a b = ⟨a.n - b.n, a.e + b.e + increment (a.n - b.n)⟩ :=
  ⟨AddFloat64Pred_eq a b, SubFloat64Pred_eq a b⟩

/-- C5: AddScalar and SubScalar add respectively subtract the float from the
stored value and add the rounding increment of the new value to the error
bound, where the increment is the smallest positive representable float64 at
a zero value and unitRoundoff times the magnitude over (1 - unitRoundoff)
otherwise; in particular AddScalar(Construct(0), f) with nonzero f has bound
unitRoundoff times the magnitude of f over (1 - unitRoundoff), and
SubScalar(Construct(5), 5) gives value 0 with the smallest positive
representable float64 as bound. -/
theorem addScalar_subScalar_formula (s : Float64Pred) (f : ℚ) :
    AddFloat64 s f = ⟨s.n + f, s.e + increment (s.n + f)⟩ ∧
    SubFloat64 s f = ⟨s.n - f, s.e + increment (s.n - f)⟩ ∧
    increment 0 = smallestNonzeroFloat64 ∧
    (f ≠ 0 → (AddFloat64 (NewFloat64Pred 0) f).e = macheps * |f| / (1 - macheps)) ∧
    SubFloat64 (NewFloat64Pred 5) 5 = ⟨0, smallestNonzeroFloat64⟩ := by
  refine ⟨AddFloat64_eq s f, SubFloat64_eq s f, by simp [increment], ?_, ?_⟩
  · intro hf
    rw [AddFloat64_eq]
    simp [NewFloat64Pred, increment, hf]
  · rw [SubFloat64_eq]
    simp [NewFloat64Pred, increment]

/-- Witness for C5 at the concrete input f = 3. -/
theorem addScalar_subScalar_formula_witness :
    (3 : ℚ) ≠ 0 ∧
    (AddFloat64 (NewFloat64Pred 0) 3).e = macheps * |(3 : ℚ)| / (1 - macheps) :=
  ⟨by norm_num,
   (addScalar_subScalar_formula (NewFloat64Pred 0) 3).2.2.2.1 (by norm_num)⟩

/-- C6: every reachable scalar, that is every scalar produced by a constructor
call followed by any finite sequence of the six arithmetic operations with
arbitrary arguments, has a nonnegative error bound. -/
theorem errorBound_nonneg_reachable (ex : Expr) : 0 ≤ (evalPred ex).e := by
  induction ex with
  | construct c => simp [evalPred, NewFloat64Pred]
  | addF x f ih =>
      simp only [evalPred, AddFloat64_eq]
      exact add_nonneg ih (increment_nonneg _)
  | subF x f ih =>
      simp only [evalPred, SubFloat64_eq]
      exact add_nonneg ih (increment_nonneg _)
  | mulF x f ih =>
      simp only [evalPred, MulFloat64Pred_eq]
      exact add_nonneg (mul_nonneg ih (by positivity)) (increment_nonneg _)
  | addP x y ihx ihy =>
      simp only [evalPred, AddFloat64Pred_eq]
      exact add_nonneg (add_nonneg ihx ihy) (increment_nonneg _)
  | subP x y ihx ihy =>
      simp only [evalPred, SubFloat64Pred_eq]
      exact add_nonneg (add_nonneg ihx ihy) (increment_nonneg _)
  | mulP x y ihx ihy =>
      simp only [evalPred, MulFloat64_eq]
      exact add_nonneg
        (add_nonneg (mul_nonneg ihx (by positivity)) (mul_nonneg ihy (abs_nonneg _)))
        (increment_nonneg _)

/-- C7: one step of any of the six operations applied to a scalar a, against
any float argument or any other-operand scalar b with nonnegative bound (as
every reachable scalar has), never decreases the error bound of a. -/
theorem errorBound_monotone_step (a b : Float64Pred) (f : ℚ)
    (ha : 0 ≤ a.e) (hb : 0 ≤ b.e) :
    a.e ≤ (AddFloat64 a f).e ∧ a.e ≤ (SubFloat64 a f).e ∧
    a.e ≤ (MulFloat64Pred a f).e ∧ a.e ≤ (AddFloat64Pred a b).e ∧
    a.e ≤ (SubFloat64Pred a b).e ∧ a.e ≤ (MulFloat64 a b).e := by
  simp only [AddFloat64_eq, SubFloat64_eq, MulFloat64Pred_eq, AddFloat64Pred_eq,
    SubFloat64Pred_eq, MulFloat64_eq]
  refine ⟨?_, ?_, ?_, ?_, ?_, ?_⟩
  · linarith [increment_nonneg (a.n + f)]
  · linarith [increment_nonneg (a.n - f)]
  · nlinarith [increment_nonneg (a.n * f), mul_nonneg ha (abs_nonneg f)]
  · linarith [increment_nonneg (a.n + b.n)]
  · linarith [increment_nonneg (a.n - b.n)]
  · nlinarith [increment_nonneg (a.n * b.n), mul_nonneg ha (abs_nonneg b.n),
      mul_nonneg hb (abs_nonneg (a.n * b.n))]

/-- Witness for C7 at the concrete scalars (1, 0) and (2, 0) and float 3. -/
theorem errorBound_monotone_step_witness :
    ((0 : ℚ) ≤ (Float64Pred.mk 1 0).e ∧ (0 : ℚ) ≤ (Float64Pred.mk 2 0).e) ∧
    (Float64Pred.mk 1 0).e ≤ (AddFloat64 ⟨1, 0⟩ 3).e :=
  ⟨⟨by norm_num, by norm_num⟩,
   (errorBound_monotone_step ⟨1, 0⟩ ⟨2, 0⟩ 3 (by norm_num) (by norm_num)).1⟩

/-- C9: multiplying Construct(n) by a and then by b through MulScalar never
gives a smaller error bound than multiplying Construct(n) by the product
a * b in one MulScalar step. -/
theorem chained_mul_bound_ge_single_mul (n a b : ℚ) :
    (MulFloat64Pred (NewFloat64Pred n) (a * b)).e ≤
      (MulFloat64Pred (MulFloat64Pred (NewFloat64Pred n) a) b).e := by
  simp only [MulFloat64Pred_eq, NewFloat64Pred, zero_mul, zero_add]
  rw [← mul_assoc]
  have h1 : 0 ≤ increment (n * a) * (1 + |b|) :=
    mul_nonneg (increment_nonneg _) (by positivity)
  linarith

/-- C10: MulTracked with a second operand whose value is 0 yields value 0 and
error bound a.e plus the smallest positive representable float64; the second
operand error bound b.e is discarded, both cross terms being scaled by a zero
magnitude. -/
theorem mulTracked_zero_operand (a b : Float64Pred) (hb : b.n = 0) :
    MulFloat64 a b = ⟨0, a.e + smallestNonzeroFloat64⟩ := by
  rw [MulFloat64_eq, hb]
  simp [increment]

/-- Witness for C10: the operand (0, 9) has value 0, and its error bound 9 is
discarded when multiplying (7, 5) by it. -/
theorem mulTracked_zero_operand_witness :
    (Float64Pred.mk 0 9).n = 0 ∧
    MulFloat64 ⟨7, 5⟩ ⟨0, 9⟩ = ⟨0, 5 + smallestNonzeroFloat64⟩ :=
  ⟨rfl, mulTracked_zero_operand ⟨7, 5⟩ ⟨0, 9⟩ rfl⟩

/-- Scalar of the C3 end-to-end scenario: Construct(1.0) then AddFloat64(2.0),
which stores value 3 with error bound macheps * 3 / (1 - macheps). -/
def sC3 : Float64Pred := AddFloat64 (NewFloat64Pred 1) 2

lemma sC3_eq : sC3 = ⟨3, macheps * 3 / (1 - macheps)⟩ := by
  rw [sC3, AddFloat64_eq]
  norm_num [NewFloat64Pred, increment, macheps]

/-- C3 counterexample: on the scenario scalar (value 3, bound macheps*3/(1-macheps))
the code does not return errorBound = s.e * the magnitude of f + increment:
MulFloat64Pred keeps the old bound in addition (the += in the source), giving
s.e * (1 + 2) + increment 6 instead of s.e * 2 + increment 6. -/
theorem mulScalar_spec_formula_fails :
    ¬ ((MulFloat64Pred sC3 2).e = sC3.e * |(2 : ℚ)| + increment (sC3.n * 2)) := by
  rw [MulFloat64Pred_eq, sC3_eq]
  norm_num [increment, macheps]

/-- C3 amended: MulScalar stores value s.n * f and error bound
s.e * (1 + the magnitude of f) + increment of the new value: the source adds
the scaled cross term to the old bound rather than replacing it. On the
end-to-end scenario Construct(1.0), AddFloat64(2.0), MulScalar(2.0) this gives
value 6 and bound (macheps*3/(1-macheps)) * 3 + macheps*6/(1-macheps). -/
theorem mulScalar_code_formula (s : Float64Pred) (f : ℚ) :
    MulFloat64Pred s f = ⟨s.n * f, s.e * (1 + |f|) + increment (s.n * f)⟩ ∧
    sC3.n = 3 ∧ sC3.e = macheps * 3 / (1 - macheps) ∧
    (MulFloat64Pred sC3 2).n = 6 ∧
    (MulFloat64Pred sC3 2).e =
      (macheps * 3 / (1 - macheps)) * 3 + macheps * 6 / (1 - macheps) := by
  refine ⟨MulFloat64Pred_eq s f, ?_, ?_, ?_, ?_⟩
  · rw [sC3_eq]
  · rw [sC3_eq]
  · rw [MulFloat64Pred_eq, sC3_eq]
    norm_num
  · rw [MulFloat64Pred_eq, sC3_eq]
    norm_num [increment, macheps]

/-- First operand of the C2 scenario: AddScalar(Construct(0), 2.0), which
stores value 2 with error bound macheps * 2 / (1 - macheps). -/
def aC2 : Float64Pred := AddFloat64 (NewFloat64Pred 0) 2

/-- Second operand of the C2 scenario: Construct(3.0). -/
def bC2 : Float64Pred := NewFloat64Pred 3

/-- First operand of the second C2 scenario, with an exactly known value. -/
def a2C2 : Float64Pred := NewFloat64Pred 1000

/-- Second operand of the second C2 scenario: AddScalar(Construct(0), 0.25),
whose error bound macheps * (1/4) / (1 - macheps) is positive. -/
def b2C2 : Float64Pred := AddFloat64 (NewFloat64Pred 0) (1 / 4)

lemma aC2_eq : aC2 = ⟨2, macheps * 2 / (1 - macheps)⟩ := by
  rw [aC2, AddFloat64_eq]
  norm_num [NewFloat64Pred, increment, macheps]

lemma b2C2_eq : b2C2 = ⟨1 / 4, macheps * (1 / 4) / (1 - macheps)⟩ := by
  rw [b2C2, AddFloat64_eq]
  norm_num [NewFloat64Pred, increment, macheps, abs_of_nonneg]

/-- C2: the claimed MulTracked formula fails on the code. On the scenario of
the claim, a = AddScalar(Construct(0), 2.0) and b = Construct(3.0), the value
is 6 but the bound is a.e + a.e * 3 + increment 6 (the += in the source keeps
the old a.e), not the claimed a.e * 3 + increment 6. On the second scenario,
a = Construct(1000) and b = AddScalar(Construct(0), 0.25), the source scales
b.e by the already-multiplied a.n, the product 250, instead of the original
operand value 1000, so the claimed cross term b.e * 1000 also fails. -/
theorem mulTracked_formula_code_bug :
    (MulFloat64 aC2 bC2).n = 6 ∧
    (MulFloat64 aC2 bC2).e ≠ aC2.e * |bC2.n| + bC2.e * |aC2.n| + increment 6 ∧
    (MulFloat64 aC2 bC2).e =
      aC2.e + aC2.e * |bC2.n| + bC2.e * |aC2.n * bC2.n| + increment 6 ∧
    (MulFloat64 a2C2 b2C2).e ≠
      a2C2.e * |b2C2.n| + b2C2.e * |a2C2.n| + increment (a2C2.n * b2C2.n) := by
  have hb : bC2 = ⟨3, 0⟩ := rfl
  have ha2 : a2C2 = ⟨1000, 0⟩ := rfl
  refine ⟨?_, ?_, ?_, ?_⟩
  · rw [MulFloat64_eq, aC2_eq, hb]
    norm_num
  · rw [MulFloat64_eq, aC2_eq, hb]
    norm_num [increment, macheps]
  · rw [MulFloat64_eq, aC2_eq, hb]
    norm_num [increment, macheps]
  · rw [MulFloat64_eq, ha2, b2C2_eq]
    norm_num [increment, macheps]

/-- Rounding function for the C1 counterexample. It rounds exactly one
argument, 2 ^ 53 + 1, down to 2 ^ 53, and is the identity elsewhere. This
matches what float64 round-to-nearest-even does at every argument the
counterexample computation evaluates: 2 ^ 53 + 1 is the first integer with no
float64 representation and ties to the even neighbour 2 ^ 53, while
2 ^ 53 - (2 ^ 53 - 1), 1 - 3 / 4 and 1000 * (1 / 4) are exact in float64. -/
def flC1 : ℚ → ℚ := fun x => if x = 2 ^ 53 + 1 then 2 ^ 53 else x

/-- Computation for the C1 counterexample:
MulTracked(Construct(1000), SubScalar(SubScalar(AddScalar(Construct(2 ^ 53), 1),
2 ^ 53 - 1), 3 / 4)). The tracked operand stores value 1 / 4 with true value
5 / 4 and a sound bound of about 2; the product stores 250 with true value
1250, but MulTracked scales the operand bound by the product 250 instead of
the other operand value 1000, leaving a bound of about 500 against an actual
deviation of 1000. -/
def exprC1 : Expr :=
  .mulP (.construct 1000)
    (.subF (.subF (.addF (.construct (2 ^ 53)) 1) (2 ^ 53 - 1)) (3 / 4))

/-- C1: the soundness claim fails on the code. There is a rounding function
satisfying the machine-epsilon property the source derives its bound from
(and agreeing with float64 rounding at every step of this computation) and a
reachable computation whose stored value differs from the exact
real-arithmetic result by more than the stored errorBound: the cross term of
MulFloat64 reads the already-multiplied a.n, so the second operand bound is
scaled by the product instead of the first operand value. -/
theorem errorBound_soundness_fails :
    IsRounding flC1 ∧
    (evalRnd flC1 exprC1).e < |(evalRnd flC1 exprC1).n - trueVal exprC1| := by
  constructor
  · intro x
    by_cases h : x = 2 ^ 53 + 1
    · simp only [flC1, if_pos h]
      subst h
      rw [show (2 : ℚ) ^ 53 - (2 ^ 53 + 1) = -1 by ring, abs_neg, abs_one]
      rw [show |(2 : ℚ) ^ 53 + 1| = 2 ^ 53 + 1 from abs_of_pos (by positivity)]
      norm_num [macheps]
    · simp only [flC1, if_neg h, sub_self, abs_zero]
      exact mul_nonneg macheps_pos.le (abs_nonneg x)
  · have h1 : evalRnd flC1 (Expr.addF (Expr.construct (2 ^ 53)) 1) =
        ⟨2 ^ 53, 2 ^ 53 / (2 ^ 52 - 1)⟩ := by
      show AddFloat64Rnd flC1 (NewFloat64Pred (2 ^ 53)) 1 = _
      norm_num [AddFloat64Rnd, NewFloat64Pred, flC1, macheps]
    have h2 : evalRnd flC1
        (Expr.subF (Expr.addF (Expr.construct (2 ^ 53)) 1) (2 ^ 53 - 1)) =
        ⟨1, 2 ^ 53 / (2 ^ 52 - 1) + 1 / (2 ^ 52 - 1)⟩ := by
      show SubFloat64Rnd flC1 (evalRnd flC1 (Expr.addF (Expr.construct (2 ^ 53)) 1))
        (2 ^ 53 - 1) = _
      rw [h1]
      norm_num [SubFloat64Rnd, flC1, macheps]
    have h3 : evalRnd flC1
        (Expr.subF (Expr.subF (Expr.addF (Expr.construct (2 ^ 53)) 1) (2 ^ 53 - 1))
          (3 / 4)) =
        ⟨1 / 4, 2 ^ 53 / (2 ^ 52 - 1) + 1 / (2 ^ 52 - 1) + (1 / 4) / (2 ^ 52 - 1)⟩ := by
      show SubFloat64Rnd flC1 (evalRnd flC1
        (Expr.subF (Expr.addF (Expr.construct (2 ^ 53)) 1) (2 ^ 53 - 1))) (3 / 4) = _
      rw [h2]
      norm_num [SubFloat64Rnd, flC1, macheps, abs_of_nonneg]
    have h4 : evalRnd flC1 exprC1 =
        ⟨250, 250 / (2 ^ 52 - 1) +
          (2 ^ 53 / (2 ^ 52 - 1) + 1 / (2 ^ 52 - 1) + (1 / 4) / (2 ^ 52 - 1)) * 250⟩ := by
      show MulFloat64Rnd flC1 (NewFloat64Pred 1000) (evalRnd flC1
        (Expr.subF (Expr.subF (Expr.addF (Expr.construct (2 ^ 53)) 1) (2 ^ 53 - 1))
          (3 / 4))) = _
      rw [h3]
      norm_num [MulFloat64Rnd, NewFloat64Pred, flC1, macheps, abs_of_nonneg]
    have h5 : trueVal exprC1 = 1250 := by
      norm_num [exprC1, trueVal]
    rw [h4, h5]
    have habs : |(250 : ℚ) - 1250| = 1000 := by
      rw [show (250 : ℚ) - 1250 = -1000 by norm_num, abs_neg,
        abs_of_pos (show (0 : ℚ) < 1000 by norm_num)]
    rw [habs]
    norm_num
